import Mathlib

/-!
Verification of the mysql_to_postgresql migration engine.

Each definition below is a shallow embedding of a function of the
repository (file and symbol named in its doc comment).  Machine strings
are Lean `String`s, Python `None` is `Option.none`, database state is
passed explicitly.  Theorems at the end of the file settle the claims
about the spec.
-/

namespace MySQLtoPostgreSQL

/-- Boolean test that `n` is a prefix of `h` (character lists). -/
def startsList (n h : List Char) : Bool :=
  match n, h with
  | [], _ => true
  | _ :: _, [] => false
  | c :: cs, d :: ds => c == d && startsList cs ds

/-- Boolean substring test on character lists, scanning left to right. -/
def subList (n : List Char) : List Char → Bool
  | [] => startsList n []
  | c :: cs => startsList n (c :: cs) || subList n cs

/-- Embedding of the Python substring operator `needle in hay`. -/
def pyIn (needle hay : String) : Bool := subList needle.data hay.data

/-- Embedding of Python `str.lower()` (ASCII case folding). -/
def strLower (s : String) : String := ⟨s.data.map Char.toLower⟩

/-- Embedding of Python `str.upper()` (ASCII case folding). -/
def strUpper (s : String) : String := ⟨s.data.map Char.toUpper⟩

/-- Embedding of `get_mysql_type_category`
(src/mysql_to_postgresql_pkg/mysql_postgres_mapping.py, lines 8-41).
A Python `None` argument is normalised to `""` by the source
(`(mysql_type or "").lower()`), so the Lean input is just a `String`. -/
def get_mysql_type_category (mysql_type : String) : String :=
  let t := strLower mysql_type
  if pyIn "tinyint(1)" t then "boolean"
  else if pyIn "bigint" t then "bigint"
  else if pyIn "tinyint" t then "tinyint"
  else if pyIn "smallint" t || pyIn "mediumint" t then "smallint"
  else if pyIn "int" t then "int"
  else if pyIn "float" t || pyIn "double" t || pyIn "decimal" t || pyIn "numeric" t then "float"
  else if pyIn "datetime" t || pyIn "timestamp" t then "datetime"
  else if pyIn "date" t then "date"
  else if pyIn "time" t then "time"
  else if pyIn "year" t then "year"
  else if pyIn "blob" t || pyIn "binary" t || pyIn "varbinary" t then "binary"
  else if pyIn "json" t then "json"
  else if pyIn "enum" t || pyIn "set" t then "enum"
  else if pyIn "varchar" t || pyIn "text" t || pyIn "char" t then "string"
  else "unknown"

/-- Splits off the maximal leading run of decimal digits. -/
def leadingDigits : List Char → List Char × List Char
  | [] => ([], [])
  | c :: cs =>
    if c.isDigit then
      let p := leadingDigits cs
      (c :: p.1, p.2)
    else ([], c :: cs)

/-- Attempt to match the regex `\((\d+),(\d+)\)` at the head of the list,
returning the two digit groups.  Greedy `\d+` followed by a non-digit
delimiter matches exactly the maximal digit run, so this is a faithful
model of the Python regex at one position. -/
def matchPS (l : List Char) : Option (List Char × List Char) :=
  match l with
  | [] => none
  | c :: rest =>
    if c = '(' then
      let q1 := leadingDigits rest
      if q1.1 = [] then none
      else
        match q1.2 with
        | [] => none
        | c1 :: r2 =>
          if c1 = ',' then
            let q2 := leadingDigits r2
            if q2.1 = [] then none
            else
              match q2.2 with
              | [] => none
              | c2 :: _ => if c2 = ')' then some (q1.1, q2.1) else none
          else none
    else none

/-- Embedding of `re.search(r"\((\d+),(\d+)\)", s)`: leftmost match wins. -/
def searchPS : List Char → Option (List Char × List Char)
  | [] => none
  | c :: cs =>
    match matchPS (c :: cs) with
    | some r => some r
    | none => searchPS cs

/-- Attempt to match the regex `\((\d+)\)` at the head of the list. -/
def matchLen (l : List Char) : Option (List Char) :=
  match l with
  | '(' :: rest =>
    match leadingDigits rest with
    | ([], _) => none
    | (d, r) =>
      match r with
      | ')' :: _ => some d
      | _ => none
  | _ => none

/-- Embedding of `re.search(r"\((\d+)\)", s)`: leftmost match wins. -/
def searchLen : List Char → Option (List Char)
  | [] => none
  | c :: cs =>
    match matchLen (c :: cs) with
    | some r => some r
    | none => searchLen cs

/-- Embedding of `map_mysql_to_postgres_type`
(src/mysql_to_postgresql_pkg/mysql_postgres_mapping.py, lines 76-124).
The `direct_map` dictionary lookup becomes the chain of category tests;
the final `"TEXT"` is the logged-warning fallback for unknown types
(the source never raises). -/
def map_mysql_to_postgres_type (mysql_type : String) : String :=
  let tl := strLower mysql_type
  let category := get_mysql_type_category mysql_type
  if category = "boolean" then "BOOLEAN"
  else if category = "tinyint" then "SMALLINT"
  else if category = "smallint" then "SMALLINT"
  else if category = "bigint" then "BIGINT"
  else if category = "int" then "INTEGER"
  else if category = "year" then "INTEGER"
  else if category = "datetime" then "TIMESTAMP"
  else if category = "date" then "DATE"
  else if category = "time" then "TIME"
  else if category = "binary" then "BYTEA"
  else if category = "json" then "JSONB"
  else if category = "enum" then "VARCHAR(255)"
  else if category = "float" then
    if pyIn "decimal" tl || pyIn "numeric" tl then
      match searchPS mysql_type.data with
      | some (p, s) => "NUMERIC(" ++ String.mk p ++ "," ++ String.mk s ++ ")"
      | none => "NUMERIC"
    else if pyIn "double" tl then "DOUBLE PRECISION"
    else "REAL"
  else if category = "string" then
    if pyIn "char" tl && !(pyIn "varchar" tl) then
      match searchLen mysql_type.data with
      | some d => "CHAR(" ++ String.mk d ++ ")"
      | none => "CHAR(255)"
    else if pyIn "varchar" tl then
      match searchLen mysql_type.data with
      | some d => "VARCHAR(" ++ String.mk d ++ ")"
      | none => "VARCHAR(255)"
    else "TEXT"
  else "TEXT"

/-- One introspected column, as unpacked in `PostgresWriter.create_table`
(src/mysql_to_postgresql_pkg/postgres_writer.py, lines 41-47): the tuple
`(col_name, col_type, is_nullable, key, default, extra)`.  `is_nullable`
is the MySQL string `"YES"`/`"NO"`, `default` may be SQL NULL (`none`). -/
structure Column where
  name : String
  colType : String
  isNullable : String
  key : String
  default : Option String
  extra : String

/-- Embedding of the per-column definition builder inside
`PostgresWriter.create_table` (src/mysql_to_postgresql_pkg/postgres_writer.py,
lines 49-77; the identical logic also appears in
`MySQLtoPostgreSQLMigrationManager.create_postgres_table`,
src/mysql_to_postgresql_pkg/mysql_to_postgresql_manager.py, lines 81-109). -/
def build_column_definition (col : Column) : String :=
  let pg_type := map_mysql_to_postgres_type col.colType
  let auto := pyIn "auto_increment" (strLower col.extra)
  let d0 := col.name ++ " " ++ pg_type
  let d1 :=
    if auto then
      if pyIn "bigint" (strLower col.colType) then col.name ++ " BIGSERIAL"
      else col.name ++ " SERIAL"
    else d0
  let d2 := if col.isNullable = "NO" && !auto then d1 ++ " NOT NULL" else d1
  match col.default with
  | none => d2
  | some d =>
    if d ≠ "NULL" && !auto then
      if pyIn "CURRENT_TIMESTAMP" (strUpper d) then d2 ++ " DEFAULT CURRENT_TIMESTAMP"
      else if (pg_type = "INTEGER" || pg_type = "BIGINT" || pg_type = "SMALLINT" ||
               pg_type = "REAL" || pg_type = "DOUBLE PRECISION") || pyIn "NUMERIC" pg_type then
        d2 ++ " DEFAULT " ++ d
      else if pg_type = "BOOLEAN" then d2 ++ " DEFAULT " ++ d
      else d2 ++ " DEFAULT \x27" ++ d ++ "\x27"
    else d2

/-- Embedding of the `while offset < total` loop of
`MySQLtoPostgreSQLMigrationManager.migrate_table`
(src/mysql_to_postgresql_pkg/mysql_to_postgresql_manager.py, lines 216-227).
Each executed batch contributes `(offset used, progress reported)`, where
the progress line prints `min(offset + batch_size, total)` over `total`.
The guard `0 < b` reflects that the source loop only terminates for a
positive batch size. -/
def migrateTrace (total b offset : Nat) : List (Nat × Nat) :=
  if _h : offset < total ∧ 0 < b then
    (offset, min (offset + b) total) :: migrateTrace total b (offset + b)
  else []
termination_by total - offset
decreasing_by omega

/-- Embedding of Python `threads or 1` on the configured thread count
(src/mysql_to_postgresql_pkg/mysql_to_postgresql_manager.py, line 239):
`0` is falsy. -/
def orOne (threads : Nat) : Nat := if threads = 0 then 1 else threads

/-- Embedding of `workers = min(self.threads or 1, len(offsets))`
(src/mysql_to_postgresql_pkg/mysql_to_postgresql_manager.py, line 239). -/
def workersFor (threads numOffsets : Nat) : Nat := min (orOne threads) numOffsets

/-- Python list subscript `gs[j]` (out of range only reachable outside
the source's use, where `j = idx % workers < len(groups)` always holds). -/
def nth : List (List Nat) → Nat → List Nat
  | [], _ => []
  | g :: _, 0 => g
  | _ :: gs, n + 1 => nth gs n

/-- In-place update `gs[j] = v` of a Python list. -/
def setNth : List (List Nat) → Nat → List Nat → List (List Nat)
  | [], _, _ => []
  | _ :: gs, 0, v => v :: gs
  | g :: gs, n + 1, v => g :: setNth gs n v

/-- Embedding of `groups[idx % workers].append(off)`: append `x` to the
`j`-th group of `gs`. -/
def appendAt (gs : List (List Nat)) (j : Nat) (x : Nat) : List (List Nat) :=
  setNth gs j (nth gs j ++ [x])

/-- Embedding of the round-robin partition of
`MySQLtoPostgreSQLMigrationManager.migrate_table_parallel`
(src/mysql_to_postgresql_pkg/mysql_to_postgresql_manager.py, lines 241-244):
`groups = [[] for _ in range(workers)]` then
`for idx, off in enumerate(offsets): groups[idx % workers].append(off)`. -/
def buildGroups (w : Nat) (offsets : List Nat) : List (List Nat) :=
  offsets.enum.foldl (fun gs p => appendAt gs (p.1 % w) p.2) (List.replicate w [])

/-- Embedding of the offset list `offsets = list(range(0, total, batch_size))`
(src/mysql_to_postgresql_pkg/mysql_to_postgresql_manager.py, line 236),
for `0 < b` (Python `range` with a positive step). -/
def offsetList (total b : Nat) : List Nat :=
  (List.range ((total + b - 1) / b)).map (· * b)

/-- Modelled from the spec: conflict-skip insert of one row (§6 target-store
contract, glossary "Conflict-skip insert").  The target table is the list of
already-inserted rows, `k` extracts the uniqueness-constraint key; a row whose
key is already present is silently skipped, any other row is appended.  This
models the PostgreSQL server's execution of the
`INSERT ... ON CONFLICT DO NOTHING` statement built by
`PostgresWriter.insert_into_table`
(src/mysql_to_postgresql_pkg/postgres_writer.py, line 160). -/
def conflictSkipOne {α κ : Type} [DecidableEq κ] (k : α → κ) (t : List α) (r : α) : List α :=
  if k r ∈ t.map k then t else t ++ [r]

/-- Conflict-skip insert of a whole batch, row by row
(`execute_values` over the batch, one statement, skip-on-conflict per row). -/
def insertBatch {α κ : Type} [DecidableEq κ] (k : α → κ) (t : List α) (b : List α) : List α :=
  b.foldl (conflictSkipOne k) t

/-- Embedding of `fetch_data_in_batch` as executed by the source store:
`SELECT * FROM t LIMIT batch_size OFFSET offset` over a stably-ordered
row list (src/mysql_to_postgresql_pkg/mysql_fetcher.py). -/
def fetchBatch {α : Type} (rows : List α) (offset b : Nat) : List α :=
  (rows.drop offset).take b

/-- Embedding of one full sequential run of
`MySQLtoPostgreSQLMigrationManager.migrate_table` against a target state:
the batch loop starting at `offset`, each batch loaded with conflict-skip
semantics (lines 216-227 drive the loop; `migrate_rows` and
`insert_into_postgres`, lines 179-214, perform the load). -/
def migrateFrom {α κ : Type} [DecidableEq κ] (k : α → κ) (source : List α) (b : Nat)
    (offset : Nat) (target : List α) : List α :=
  if _h : offset < source.length ∧ 0 < b then
    migrateFrom k source b (offset + b) (insertBatch k target (fetchBatch source offset b))
  else target
termination_by source.length - offset
decreasing_by omega

/-- One full-table migration run: `migrate_table` with `total` read once
from the source and the loop started at offset 0. -/
def migrateTableRun {α κ : Type} [DecidableEq κ] (k : α → κ) (source : List α) (b : Nat)
    (target : List α) : List α :=
  migrateFrom k source b 0 target

/-- Maximum of the present values of a column, `none` when every value is
null: models `data[column].max(skipna=True)` returning NaN on an all-null
column. -/
def observedMax (vals : List (Option Int)) : Option Int :=
  match vals.filterMap id with
  | [] => none
  | v :: vs => some (vs.foldl max v)

/-- Embedding of the integer branches of `transform_data_types`
(src/mysql_to_postgresql_pkg/mysql_postgres_mapping.py, lines 46-63)
for one column: an all-null column is skipped (`none`); an int-category
column becomes pandas `"Int64"` exactly when the observed maximum exceeds
`2_147_483_647`, else `"Int32"`; tinyint/smallint-category columns become
`"Int32"`.  Categories outside the integer family are out of this model
(`none`). -/
def transform_int_column (mysql_type : String) (vals : List (Option Int)) : Option String :=
  if vals.all (·.isNone) then none
  else
    let category := get_mysql_type_category mysql_type
    if category = "int" then
      match observedMax vals with
      | some m => if m > 2147483647 then some "Int64" else some "Int32"
      | none => some "Int32"
    else if category = "tinyint" || category = "smallint" then some "Int32"
    else none

/-- State of a PostgreSQL sequence: last value and the `is_called` flag.
Modelled from the spec: the sequence semantics of the target store (§4.7,
external collaborator) — `nextval` returns `value + 1` when `is_called`
is set, else `value`. -/
structure SeqState where
  value : Int
  isCalled : Bool
deriving DecidableEq

/-- Modelled from the spec: the value the next `nextval` call generates. -/
def nextKey (s : SeqState) : Int := if s.isCalled then s.value + 1 else s.value

/-- Embedding of `COALESCE((SELECT MAX(pk) FROM t), 1)`
(src/mysql_to_postgresql_pkg/mysql_to_postgresql_manager.py, line 444):
`MAX` over an empty table is SQL NULL, coalesced to 1. -/
def maxOr1 (vals : List Int) : Int :=
  match vals with
  | [] => 1
  | v :: vs => vs.foldl max v

/-- Embedding of `MySQLtoPostgreSQLMigrationManager.update_sequence`
(src/mysql_to_postgresql_pkg/mysql_to_postgresql_manager.py, lines 427-453).
`pks` is the catalog's primary-key column list, `colVals` maps a column
name to its values in the target table, `seq` is the table's sequence.
With no primary key nothing happens; otherwise only `primary_keys[0]` is
used and `setval(seq, COALESCE(MAX(pk), 1), true)` sets the sequence
value and marks it called (already-advanced). -/
def update_sequence (pks : List String) (colVals : String → List Int)
    (seq : SeqState) : SeqState :=
  match pks with
  | [] => seq
  | pk :: _ => { value := maxOr1 (colVals pk), isCalled := true }

section TypeMapperTheorems

/-- A match of the two-group pattern never starts at a character other
than an opening parenthesis. -/
lemma matchPS_cons_ne (c : Char) (cs : List Char) (hc : c ≠ '(') :
    matchPS (c :: cs) = none := by
  simp [matchPS, hc]


/-- Scanning past a character that cannot start a match. -/
lemma searchPS_cons_ne (c : Char) (cs : List Char) (hc : c ≠ '(') :
    searchPS (c :: cs) = searchPS cs := by
  show (match matchPS (c :: cs) with | some r => some r | none => searchPS cs) = searchPS cs
  rw [matchPS_cons_ne c cs hc]

/-- The maximal-digit-run splitter consumes exactly a leading all-digit
block that is followed by a non-digit. -/
lemma leadingDigits_append (p : List Char) (c : Char) (r : List Char)
    (hp : ∀ x ∈ p, x.isDigit = true) (hc : c.isDigit = false) :
    leadingDigits (p ++ c :: r) = (p, c :: r) := by
  induction p with
  | nil => simp [leadingDigits, hc]
  | cons a as ih =>
    have ha : a.isDigit = true := hp a (List.mem_cons_self a as)
    have has : ∀ x ∈ as, x.isDigit = true := fun x hx => hp x (List.mem_cons_of_mem a hx)
    simp [leadingDigits, ha, ih has]

/-- The two-group pattern matches at an opening parenthesis followed by
digits, a comma, digits and a closing parenthesis. -/
lemma matchPS_hit (p s rest : List Char) (hpne : p ≠ []) (hsne : s ≠ [])
    (hp : ∀ x ∈ p, x.isDigit = true) (hs : ∀ x ∈ s, x.isDigit = true) :
    matchPS ('(' :: (p ++ ',' :: (s ++ ')' :: rest))) = some (p, s) := by
  simp only [matchPS]
  rw [leadingDigits_append p ',' (s ++ ')' :: rest) hp (by decide)]
  simp [hpne]
  rw [leadingDigits_append s ')' rest hs (by decide)]
  simp [hsne]

/-- The leftmost-match search finds the suffix group when no earlier
opening parenthesis occurs. -/
lemma searchPS_suffix (base p s rest : List Char)
    (hbase : ∀ c ∈ base, c ≠ '(') (hpne : p ≠ []) (hsne : s ≠ [])
    (hp : ∀ x ∈ p, x.isDigit = true) (hs : ∀ x ∈ s, x.isDigit = true) :
    searchPS (base ++ '(' :: (p ++ ',' :: (s ++ ')' :: rest))) = some (p, s) := by
  induction base with
  | nil =>
    simp only [List.nil_append]
    unfold searchPS
    rw [matchPS_hit p s rest hpne hsne hp hs]
  | cons c cs ih =>
    have hc : c ≠ '(' := hbase c (List.mem_cons_self c cs)
    have hcs : ∀ x ∈ cs, x ≠ '(' := fun x hx => hbase x (List.mem_cons_of_mem c hx)
    rw [List.cons_append, searchPS_cons_ne c _ hc]
    exact ih hcs

/-- C7 counterexample: the type string `"tinyint (1)"` contains both the
substring `"tinyint"` and the substring `"(1)"`, yet it classifies as
`"tinyint"`, not `"boolean"` — the source tests for the contiguous
substring `"tinyint(1)"` only. -/
theorem classify_both_substrings_not_boolean :
    pyIn "tinyint" (strLower "tinyint (1)") = true ∧
    pyIn "(1)" (strLower "tinyint (1)") = true ∧
    get_mysql_type_category "tinyint (1)" = "tinyint" := by
  refine ⟨by decide, by decide, by decide⟩

/-- C7 (amended): a type string containing the contiguous lower-cased
substring `"tinyint(1)"` classifies as boolean before the generic tinyint
rule fires, and a type string containing `"bigint"` (and not containing
`"tinyint(1)"`) classifies as bigint — the bigint test precedes the
broader `"int"` match, so such a string is never classified as int. -/
theorem classify_priority (t : String) :
    (pyIn "tinyint(1)" (strLower t) = true → get_mysql_type_category t = "boolean") ∧
    (pyIn "bigint" (strLower t) = true → pyIn "tinyint(1)" (strLower t) = false →
      get_mysql_type_category t = "bigint") := by
  constructor
  · intro h1
    simp [get_mysql_type_category, h1]
  · intro hb h1
    simp [get_mysql_type_category, h1, hb]

/-- C7 witness: the amended priority rules at concrete inputs. -/
theorem classify_priority_witness :
    get_mysql_type_category "TINYINT(1)" = "boolean" ∧
    get_mysql_type_category "bigint(20) unsigned" = "bigint" :=
  ⟨(classify_priority "TINYINT(1)").1 (by decide),
   (classify_priority "bigint(20) unsigned").2 (by decide) (by decide)⟩

/-- C8: type mapping is total — it is a total function in this embedding,
mirroring the source, which has no raising path — and every type string
whose category is the fallback `"unknown"` maps to the generic `"TEXT"`
(after a logged warning in the source). -/
theorem unknown_type_maps_to_text (t : String)
    (hcat : get_mysql_type_category t = "unknown") :
    map_mysql_to_postgres_type t = "TEXT" := by
  simp [map_mysql_to_postgres_type, hcat]

/-- C8 witness: an unrecognized type string maps to TEXT. -/
theorem unknown_type_maps_to_text_witness :
    get_mysql_type_category "geometry" = "unknown" ∧
    map_mysql_to_postgres_type "geometry" = "TEXT" :=
  ⟨by decide, unknown_type_maps_to_text "geometry" (by decide)⟩

/-- C6: for a source type in the decimal/numeric family (category
`"float"` with a literal `"decimal"`/`"numeric"` occurrence), the mapper
returns `NUMERIC(p,s)` with exactly the `p` and `s` found by the regex
search, `NUMERIC` when the pattern is absent; and when the type string
ends in a well-formed `(p,s)` suffix preceded by no other opening
parenthesis, the result is exactly `NUMERIC(p,s)` for that suffix. -/
theorem decimal_maps_to_numeric (t : String)
    (hcat : get_mysql_type_category t = "float")
    (hdec : (pyIn "decimal" (strLower t) || pyIn "numeric" (strLower t)) = true) :
    (∀ p s, searchPS t.data = some (p, s) →
      map_mysql_to_postgres_type t = "NUMERIC(" ++ String.mk p ++ "," ++ String.mk s ++ ")") ∧
    (searchPS t.data = none → map_mysql_to_postgres_type t = "NUMERIC") ∧
    (∀ base p s, t.data = base ++ '(' :: (p ++ ',' :: (s ++ [')'])) →
      (∀ c ∈ base, c ≠ '(') → p ≠ [] → s ≠ [] →
      (∀ x ∈ p, x.isDigit = true) → (∀ x ∈ s, x.isDigit = true) →
      map_mysql_to_postgres_type t = "NUMERIC(" ++ String.mk p ++ "," ++ String.mk s ++ ")") := by
  refine ⟨?_, ?_, ?_⟩
  · intro p s hps
    simp [map_mysql_to_postgres_type, hcat, hdec, hps]
  · intro hnone
    simp [map_mysql_to_postgres_type, hcat, hdec, hnone]
  · intro base p s ht hbase hpne hsne hp hs
    have hsearch : searchPS t.data = some (p, s) := by
      rw [ht]
      exact searchPS_suffix base p s [] hbase hpne hsne hp hs
    simp [map_mysql_to_postgres_type, hcat, hdec, hsearch]

/-- C6 witness: `decimal(10,2)` maps to `NUMERIC(10,2)`. -/
theorem decimal_maps_to_numeric_witness :
    map_mysql_to_postgres_type "decimal(10,2)" = "NUMERIC(10,2)" := by
  have h := (decimal_maps_to_numeric "decimal(10,2)" (by decide) (by decide)).1
    ['1', '0'] ['2'] (by decide)
  exact h.trans (by decide)

/-- C5: an int-category column whose values are not entirely null is
coerced to pandas nullable `Int64` exactly when its observed maximum
exceeds `2_147_483_647`, else to nullable `Int32`; tinyint- and
smallint-category columns always coerce to nullable `Int32`. -/
theorem int_coercion_threshold (t : String) (vals : List (Option Int)) (m : Int)
    (hnn : vals.all (·.isNone) = false) (hm : observedMax vals = some m) :
    (get_mysql_type_category t = "int" →
      transform_int_column t vals = some (if m > 2147483647 then "Int64" else "Int32")) ∧
    (get_mysql_type_category t = "tinyint" ∨ get_mysql_type_category t = "smallint" →
      transform_int_column t vals = some "Int32") := by
  constructor
  · intro hcat
    simp only [transform_int_column, hnn, hcat, hm]
    simp only [Bool.false_eq_true, if_false, String.reduceEq, if_true]
    split <;> rfl
  · rintro (hcat | hcat) <;> simp [transform_int_column, hnn, hcat]

/-- C5 witness: maximum `5_000_000_000` forces `Int64`, maximum `100`
stays `Int32`, and a smallint column stays `Int32`. -/
theorem int_coercion_threshold_witness :
    transform_int_column "int(11)" [some 5000000000, none] = some "Int64" ∧
    transform_int_column "int(11)" [some 100, some 7] = some "Int32" ∧
    transform_int_column "smallint(6)" [some 100000000000] = some "Int32" := by
  refine ⟨?_, ?_, ?_⟩
  · have h := (int_coercion_threshold "int(11)" [some 5000000000, none] 5000000000
      (by decide) (by decide)).1 (by decide)
    exact h.trans (by decide)
  · have h := (int_coercion_threshold "int(11)" [some 100, some 7] 100
      (by decide) (by decide)).1 (by decide)
    exact h.trans (by decide)
  · exact (int_coercion_threshold "smallint(6)" [some 100000000000] 100000000000
      (by decide) (by decide)).2 (Or.inr (by decide))

end TypeMapperTheorems


section TableDefinitionTheorems

/-- C1 counterexample: a non-auto-increment, non-nullable column with a
plain default produces a definition carrying both a NOT NULL clause and a
DEFAULT clause — the source applies the two rules as independent `if`s,
not as an else-if chain. -/
theorem col_def_both_clauses :
    build_column_definition ⟨"status", "varchar(16)", "NO", "", some "active", ""⟩ =
      "status VARCHAR(16) NOT NULL DEFAULT \x27active\x27" ∧
    pyIn " NOT NULL" (build_column_definition ⟨"status", "varchar(16)", "NO", "", some "active", ""⟩) = true ∧
    pyIn " DEFAULT " (build_column_definition ⟨"status", "varchar(16)", "NO", "", some "active", ""⟩) = true := by
  refine ⟨by decide, by decide, by decide⟩

/-- C1 (amended): for a non-auto-increment column the NOT NULL rule and
the DEFAULT rule are applied independently; a non-nullable column whose
default is present and is not the literal `"NULL"` receives NOT NULL
followed by a DEFAULT clause formatted by the default-formatting rules
(current-timestamp markers unquoted, numeric-family and boolean targets
unquoted, everything else quoted). -/
theorem col_def_not_null_then_default (col : Column) (d : String)
    (hauto : pyIn "auto_increment" (strLower col.extra) = false)
    (hnn : col.isNullable = "NO")
    (hd : col.default = some d) (hdn : d ≠ "NULL") :
    build_column_definition col =
      col.name ++ " " ++ map_mysql_to_postgres_type col.colType ++ " NOT NULL" ++
      (if pyIn "CURRENT_TIMESTAMP" (strUpper d) then " DEFAULT CURRENT_TIMESTAMP"
       else if (map_mysql_to_postgres_type col.colType = "INTEGER" ||
                map_mysql_to_postgres_type col.colType = "BIGINT" ||
                map_mysql_to_postgres_type col.colType = "SMALLINT" ||
                map_mysql_to_postgres_type col.colType = "REAL" ||
                map_mysql_to_postgres_type col.colType = "DOUBLE PRECISION") ||
               pyIn "NUMERIC" (map_mysql_to_postgres_type col.colType) then
         " DEFAULT " ++ d
       else if map_mysql_to_postgres_type col.colType = "BOOLEAN" then " DEFAULT " ++ d
       else " DEFAULT \x27" ++ d ++ "\x27") := by
  simp [build_column_definition, hauto, hnn, hd, hdn]
  repeat' split
  all_goals first
    | rfl
    | simp [← String.append_assoc]

/-- C1 witness: the amended rule evaluated on a concrete non-nullable
column with a quoted default. -/
theorem col_def_not_null_then_default_witness :
    build_column_definition ⟨"name", "text", "NO", "", some "n/a", ""⟩ =
      "name TEXT NOT NULL DEFAULT \x27n/a\x27" := by
  have h := col_def_not_null_then_default ⟨"name", "text", "NO", "", some "n/a", ""⟩ "n/a"
    (by decide) (by decide) (by decide) (by decide)
  exact h.trans (by decide)

end TableDefinitionTheorems

section BatchLoopTheorems

/-- Loop-guard bridge: the guard `offset < total` at offset `j * B` says
`j` is below the ceiling `⌈total / B⌉ = (total + B - 1) / B`. -/
lemma lt_ceilDiv_iff (N B j : Nat) (hB : 0 < B) :
    j < (N + B - 1) / B ↔ j * B < N := by
  rw [Nat.lt_iff_add_one_le, Nat.le_div_iff_mul_le hB, add_one_mul]
  generalize j * B = a
  omega

/-- Unfolding of the sequential batch loop started at offset `j * B`. -/
lemma migrateTrace_eq_range' (N B : Nat) (hB : 0 < B) :
    ∀ d j, (N + B - 1) / B - j = d →
      migrateTrace N B (j * B) =
        (List.range' j d).map (fun i => (i * B, min ((i + 1) * B) N)) := by
  intro d
  induction d with
  | zero =>
    intro j hj
    have hk : ¬ j * B < N := by
      rw [← lt_ceilDiv_iff N B j hB]
      omega
    rw [migrateTrace]
    simp [hk]
  | succ d ih =>
    intro j hj
    have hk : j * B < N := by
      rw [← lt_ceilDiv_iff N B j hB]
      omega
    rw [migrateTrace, dif_pos ⟨hk, hB⟩]
    have hstep : j * B + B = (j + 1) * B := by ring
    rw [hstep, ih (j + 1) (by omega), List.range'_succ]
    simp

/-- C2: for batch size `B > 0` the sequential loop of `migrate_table`
performs exactly `⌈N / B⌉` batch iterations at the strictly increasing
offsets `0, B, 2B, …`, reporting `(min(offset + B, N), N)`-style progress
`min((i+1)·B, N)` after the `i`-th batch, and performs zero batch
operations when `N = 0` (raising nothing — the embedding is total). -/
theorem migrate_table_batches (N B : Nat) (hB : 0 < B) :
    migrateTrace N B 0 =
      (List.range ((N + B - 1) / B)).map (fun i => (i * B, min ((i + 1) * B) N)) ∧
    (migrateTrace N B 0).length = (N + B - 1) / B ∧
    ((migrateTrace N B 0).map Prod.fst).Pairwise (· < ·) ∧
    (N = 0 → migrateTrace N B 0 = []) := by
  have h0 : migrateTrace N B 0 =
      (List.range' 0 ((N + B - 1) / B)).map (fun i => (i * B, min ((i + 1) * B) N)) := by
    have h := migrateTrace_eq_range' N B hB ((N + B - 1) / B) 0 (Nat.sub_zero _)
    simpa using h
  have hrange : migrateTrace N B 0 =
      (List.range ((N + B - 1) / B)).map (fun i => (i * B, min ((i + 1) * B) N)) := by
    rw [h0, List.range_eq_range']
  refine ⟨hrange, ?_, ?_, ?_⟩
  · rw [hrange]
    simp
  · rw [hrange, List.map_map]
    rw [List.pairwise_map]
    exact (List.pairwise_lt_range _).imp (fun h => by
      simpa using mul_lt_mul_of_pos_right h hB)
  · intro hN
    subst hN
    have hz : (0 + B - 1) / B = 0 := Nat.div_eq_of_lt (by omega)
    rw [hrange, hz]
    simp

/-- C2 witness: 250,000 rows at batch size 10,000 is exactly 25 batches,
and 0 rows is zero batches. -/
theorem migrate_table_batches_witness :
    (migrateTrace 250000 10000 0).length = 25 ∧ migrateTrace 0 10000 0 = [] := by
  have h := migrate_table_batches 250000 10000 (by decide)
  have h0 := migrate_table_batches 0 10000 (by decide)
  refine ⟨?_, h0.2.2.2 rfl⟩
  rw [h.2.1]

end BatchLoopTheorems

section SchedulerTheorems

/-- Updating a group leaves the number of groups unchanged. -/
lemma length_setNth (gs : List (List Nat)) (j : Nat) (v : List Nat) :
    (setNth gs j v).length = gs.length := by
  induction gs generalizing j with
  | nil => rfl
  | cons g gsTail ih =>
    cases j with
    | zero => rfl
    | succ j => simp [setNth, ih]

/-- Reading back the group just written. -/
lemma nth_setNth_self (gs : List (List Nat)) (j : Nat) (v : List Nat)
    (hj : j < gs.length) : nth (setNth gs j v) j = v := by
  induction gs generalizing j with
  | nil => simp at hj
  | cons g gsTail ih =>
    cases j with
    | zero => rfl
    | succ j => exact ih j (by simpa using hj)

/-- Reading any other group is unaffected by the write. -/
lemma nth_setNth_ne (gs : List (List Nat)) (i j : Nat) (v : List Nat)
    (hij : i ≠ j) : nth (setNth gs j v) i = nth gs i := by
  induction gs generalizing i j with
  | nil => rfl
  | cons g gsTail ih =>
    cases j with
    | zero =>
      cases i with
      | zero => exact absurd rfl hij
      | succ i => rfl
    | succ j =>
      cases i with
      | zero => rfl
      | succ i => exact ih i j (by omega)

/-- `appendAt` preserves the number of groups. -/
lemma length_appendAt (gs : List (List Nat)) (j : Nat) (x : Nat) :
    (appendAt gs j x).length = gs.length := length_setNth gs j _

/-- The appended element lands in group `j`. -/
lemma mem_nth_appendAt_self (gs : List (List Nat)) (j : Nat) (x : Nat)
    (hj : j < gs.length) : x ∈ nth (appendAt gs j x) j := by
  rw [appendAt, nth_setNth_self gs j _ hj]
  simp

/-- Writing past the end of the group list is a no-op (unreachable in the
source, where the written index is always in range). -/
lemma setNth_oob (gs : List (List Nat)) (j : Nat) (v : List Nat)
    (hj : gs.length ≤ j) : setNth gs j v = gs := by
  induction gs generalizing j with
  | nil => rfl
  | cons g gsTail ih =>
    cases j with
    | zero => simp at hj
    | succ j => simp [setNth, ih j (by simpa using hj)]

/-- Existing members of every group survive an `appendAt`. -/
lemma mem_nth_appendAt_of_mem (gs : List (List Nat)) (j : Nat) (x : Nat)
    (i : Nat) (y : Nat) (hy : y ∈ nth gs i) : y ∈ nth (appendAt gs j x) i := by
  by_cases hij : i = j
  · subst hij
    by_cases hi : i < gs.length
    · rw [appendAt, nth_setNth_self gs i _ hi]
      exact List.mem_append_left _ hy
    · rw [appendAt, setNth_oob gs i _ (by omega)]
      exact hy
  · rw [appendAt, nth_setNth_ne gs i j _ hij]
    exact hy

/-- The fold that distributes offsets over groups never changes the
number of groups. -/
lemma length_foldl_appendAt (w : Nat) :
    ∀ (l : List (Nat × Nat)) (gs : List (List Nat)),
      (l.foldl (fun gs p => appendAt gs (p.1 % w) p.2) gs).length = gs.length := by
  intro l
  induction l with
  | nil => intro gs; rfl
  | cons p ps ih =>
    intro gs
    rw [List.foldl_cons, ih, length_appendAt]

/-- Round-robin invariant of the scheduler fold: every already-placed
offset stays in its group, and the `i`-th remaining offset (enumerated
from `n`) ends up in group `(n + i) % w`. -/
lemma buildGroups_aux (w : Nat) (hw : 0 < w) :
    ∀ (l : List Nat) (n : Nat) (gs : List (List Nat)), gs.length = w →
      (∀ j y, y ∈ nth gs j →
        y ∈ nth ((List.enumFrom n l).foldl
          (fun gs p => appendAt gs (p.1 % w) p.2) gs) j) ∧
      (∀ i, (hi : i < l.length) →
        l.get ⟨i, hi⟩ ∈ nth ((List.enumFrom n l).foldl
          (fun gs p => appendAt gs (p.1 % w) p.2) gs) ((n + i) % w)) := by
  intro l
  induction l with
  | nil =>
    intro n gs _
    refine ⟨fun j y hy => hy, fun i hi => ?_⟩
    simp at hi
  | cons a l ih =>
    intro n gs hgs
    have hlen : (appendAt gs (n % w) a).length = w := by
      rw [length_appendAt, hgs]
    obtain ⟨ihPres, ihMem⟩ := ih (n + 1) (appendAt gs (n % w) a) hlen
    refine ⟨fun j y hy => ?_, fun i hi => ?_⟩
    · exact ihPres j y (mem_nth_appendAt_of_mem gs (n % w) a j y hy)
    · cases i with
      | zero =>
        show a ∈ nth ((List.enumFrom (n + 1) l).foldl
          (fun gs p => appendAt gs (p.1 % w) p.2) (appendAt gs (n % w) a)) ((n + 0) % w)
        rw [Nat.add_zero]
        refine ihPres (n % w) a ?_
        exact mem_nth_appendAt_self gs (n % w) a (by rw [hgs]; exact Nat.mod_lt n hw)
      | succ i =>
        have hn : n + (i + 1) = (n + 1) + i := by omega
        rw [hn]
        exact ihMem i (by simpa using hi)

/-- C3: with `T ≥ 1` configured threads and `K ≥ 1` offsets, the parallel
scheduler creates exactly `min(T, K)` workers; the `i`-th offset is
assigned to worker `i mod min(T, K)` (round-robin), and every worker
receives at least one offset. -/
theorem migrate_table_parallel_schedule (threads : Nat) (offsets : List Nat)
    (ht : 1 ≤ threads) (hk : 1 ≤ offsets.length) :
    workersFor threads offsets.length = min threads offsets.length ∧
    (buildGroups (workersFor threads offsets.length) offsets).length =
      min threads offsets.length ∧
    (∀ i, (hi : i < offsets.length) →
      offsets.get ⟨i, hi⟩ ∈
        nth (buildGroups (workersFor threads offsets.length) offsets)
          (i % min threads offsets.length)) ∧
    (∀ j, j < min threads offsets.length →
      nth (buildGroups (workersFor threads offsets.length) offsets) j ≠ []) := by
  have hne : threads ≠ 0 := by omega
  have hworkers : workersFor threads offsets.length = min threads offsets.length := by
    simp [workersFor, orOne, hne]
  have hw : 0 < min threads offsets.length := by
    exact Nat.lt_min.mpr ⟨ht, hk⟩
  have haux := buildGroups_aux (min threads offsets.length) hw offsets 0
    (List.replicate (min threads offsets.length) []) (by simp)
  have hmem : ∀ i, (hi : i < offsets.length) →
      offsets.get ⟨i, hi⟩ ∈
        nth (buildGroups (min threads offsets.length) offsets)
          (i % min threads offsets.length) := by
    intro i hi
    have h := haux.2 i hi
    rw [Nat.zero_add] at h
    exact h
  refine ⟨hworkers, ?_, ?_, ?_⟩
  · rw [hworkers]
    unfold buildGroups
    rw [length_foldl_appendAt, List.length_replicate]
  · rw [hworkers]
    exact hmem
  · rw [hworkers]
    intro j hj
    have hjk : j < offsets.length := lt_of_lt_of_le hj (min_le_right _ _)
    have h := hmem j hjk
    rw [Nat.mod_eq_of_lt hj] at h
    exact List.ne_nil_of_mem h

/-- C3 witness: 3 batches with 8 configured threads yields exactly 3
workers, each group populated. -/
theorem migrate_table_parallel_schedule_witness :
    workersFor 8 [0, 10000, 20000].length = 3 ∧
    (buildGroups (workersFor 8 [0, 10000, 20000].length) [0, 10000, 20000]).length = 3 := by
  have h := migrate_table_parallel_schedule 8 [0, 10000, 20000] (by decide) (by decide)
  refine ⟨h.1.trans (by decide), h.2.1.trans (by decide)⟩

end SchedulerTheorems

section SequenceTheorems

/-- Every element of the list is bounded by the fold of `max`. -/
lemma le_foldl_max (a : Int) (l : List Int) : a ≤ l.foldl max a := by
  induction l generalizing a with
  | nil => exact le_refl a
  | cons b bs ih => exact le_trans (le_max_left a b) (ih (max a b))

/-- Members of the list are bounded by the fold of `max`. -/
lemma mem_le_foldl_max (l : List Int) : ∀ a, ∀ v ∈ l, v ≤ l.foldl max a := by
  induction l with
  | nil => intro a v hv; cases hv
  | cons b bs ih =>
    intro a v hv
    rcases List.mem_cons.mp hv with h | h
    · subst h
      exact le_trans (le_max_right a v) (le_foldl_max (max a v) bs)
    · exact ih (max a b) v h

/-- The coalesced maximum bounds every value in the column. -/
lemma le_maxOr1 (l : List Int) : ∀ v ∈ l, v ≤ maxOr1 l := by
  intro v hv
  cases l with
  | nil => cases hv
  | cons b bs =>
    rcases List.mem_cons.mp hv with h | h
    · subst h
      exact le_foldl_max v bs
    · exact mem_le_foldl_max bs b v h

/-- C9: with no primary key, sequence realignment is a no-op; with a
primary key it sets the sequence to the maximum existing key value
(1 for an empty table) with `is_called` set (already-advanced), so the
next generated key is `max + 1`, strictly greater than every existing
key. -/
theorem update_sequence_realigns (pks : List String) (colVals : String → List Int)
    (seq : SeqState) :
    (pks = [] → update_sequence pks colVals seq = seq) ∧
    (∀ pk rest, pks = pk :: rest →
      update_sequence pks colVals seq = { value := maxOr1 (colVals pk), isCalled := true } ∧
      (colVals pk = [] → (update_sequence pks colVals seq).value = 1) ∧
      nextKey (update_sequence pks colVals seq) = maxOr1 (colVals pk) + 1 ∧
      (∀ v ∈ colVals pk, v < nextKey (update_sequence pks colVals seq))) := by
  constructor
  · intro h; subst h; rfl
  · intro pk rest h
    subst h
    refine ⟨rfl, ?_, rfl, ?_⟩
    · intro hempty
      simp [update_sequence, hempty, maxOr1]
    · intro v hv
      have hle := le_maxOr1 (colVals pk) v hv
      have : nextKey (update_sequence (pk :: rest) colVals seq) = maxOr1 (colVals pk) + 1 := rfl
      omega

/-- C9 witness: after loading keys up to 500, the next generated key
is 501. -/
theorem update_sequence_realigns_witness :
    nextKey (update_sequence ["id"] (fun _ => [7, 500, 42]) ⟨0, false⟩) = 501 := by
  have h := (update_sequence_realigns ["id"] (fun _ => [7, 500, 42]) ⟨0, false⟩).2 "id" [] rfl
  rw [h.2.2.1]
  decide

/-- C10: when the catalog returns a composite primary key, sequence
realignment uses only the first returned column — the result equals the
single-column realignment on the head, and the remaining columns are
ignored entirely. -/
theorem update_sequence_uses_first_pk (pk : String) (rest : List String)
    (colVals : String → List Int) (seq : SeqState) :
    update_sequence (pk :: rest) colVals seq = update_sequence [pk] colVals seq ∧
    update_sequence (pk :: rest) colVals seq =
      { value := maxOr1 (colVals pk), isCalled := true } :=
  ⟨rfl, rfl⟩

end SequenceTheorems

section IdempotenceTheorems

variable {α κ : Type} [DecidableEq κ]

/-- Keys already present survive one conflict-skip insert. -/
lemma key_mem_conflictSkipOne (k : α → κ) (t : List α) (x : α) (c : κ)
    (h : c ∈ t.map k) : c ∈ (conflictSkipOne k t x).map k := by
  unfold conflictSkipOne
  split
  · exact h
  · simp only [List.map_append]
    exact List.mem_append_left _ h

/-- The inserted row's key is present afterwards, whether or not the row
was skipped. -/
lemma key_self_conflictSkipOne (k : α → κ) (t : List α) (x : α) :
    k x ∈ (conflictSkipOne k t x).map k := by
  unfold conflictSkipOne
  split
  · assumption
  · simp

/-- A row whose key is already present is skipped outright. -/
lemma conflictSkipOne_skip (k : α → κ) (t : List α) (x : α)
    (h : k x ∈ t.map k) : conflictSkipOne k t x = t := by
  unfold conflictSkipOne
  rw [if_pos h]

/-- Keys already present survive a whole batch insert. -/
lemma key_mem_insertBatch (k : α → κ) (b : List α) :
    ∀ (t : List α) (c : κ), c ∈ t.map k → c ∈ (insertBatch k t b).map k := by
  induction b with
  | nil => intro t c h; exact h
  | cons x xs ih =>
    intro t c h
    exact ih (conflictSkipOne k t x) c (key_mem_conflictSkipOne k t x c h)

/-- Every row of the batch has its key present after the batch insert. -/
lemma key_of_batch_mem_insertBatch (k : α → κ) (b : List α) :
    ∀ (t : List α) (r : α), r ∈ b → k r ∈ (insertBatch k t b).map k := by
  induction b with
  | nil => intro t r h; cases h
  | cons x xs ih =>
    intro t r h
    rcases List.mem_cons.mp h with h | h
    · subst h
      exact key_mem_insertBatch k xs (conflictSkipOne k t r) (k r)
        (key_self_conflictSkipOne k t r)
    · exact ih (conflictSkipOne k t x) r h

/-- A batch all of whose keys are already present inserts nothing. -/
lemma insertBatch_skip_all (k : α → κ) (b : List α) :
    ∀ (t : List α), (∀ r ∈ b, k r ∈ t.map k) → insertBatch k t b = t := by
  induction b with
  | nil => intro t _; rfl
  | cons x xs ih =>
    intro t h
    have hx : conflictSkipOne k t x = t :=
      conflictSkipOne_skip k t x (h x (List.mem_cons_self x xs))
    show insertBatch k (conflictSkipOne k t x) xs = t
    rw [hx]
    exact ih t (fun r hr => h r (List.mem_cons_of_mem x hr))

/-- Keys present in the target are never lost across the batch loop. -/
lemma migrateFrom_key_mono (k : α → κ) (source : List α) (b : Nat) :
    ∀ (d off : Nat) (t : List α) (c : κ), source.length - off ≤ d →
      c ∈ t.map k → c ∈ (migrateFrom k source b off t).map k := by
  intro d
  induction d with
  | zero =>
    intro off t c hd h
    rw [migrateFrom, dif_neg (by omega)]
    exact h
  | succ d ih =>
    intro off t c hd h
    by_cases hoff : off < source.length ∧ 0 < b
    · rw [migrateFrom, dif_pos hoff]
      exact ih (off + b) _ c (by omega)
        (key_mem_insertBatch k (fetchBatch source off b) t c h)
    · rw [migrateFrom, dif_neg hoff]
      exact h

/-- After a full run from offset `off`, every source row at or beyond
`off` has its key present in the target. -/
lemma migrateFrom_covers (k : α → κ) (source : List α) (b : Nat) (hb : 0 < b) :
    ∀ (d off : Nat) (t : List α) (r : α), source.length - off ≤ d →
      r ∈ source.drop off → k r ∈ (migrateFrom k source b off t).map k := by
  intro d
  induction d with
  | zero =>
    intro off t r hd hr
    rw [List.drop_eq_nil_of_le (by omega)] at hr
    cases hr
  | succ d ih =>
    intro off t r hd hr
    by_cases hoff : off < source.length
    · rw [migrateFrom, dif_pos ⟨hoff, hb⟩]
      have hsplit : (source.drop off).take b ++ (source.drop off).drop b =
          source.drop off := List.take_append_drop b (source.drop off)
      rw [← hsplit] at hr
      rcases List.mem_append.mp hr with h1 | h2
      · exact migrateFrom_key_mono k source b (source.length - (off + b)) (off + b) _
          (k r) (le_refl _)
          (key_of_batch_mem_insertBatch k (fetchBatch source off b) t r h1)
      · rw [List.drop_drop] at h2
        exact ih (off + b) _ r (by omega) h2
    · rw [List.drop_eq_nil_of_le (by omega)] at hr
      cases hr
/-- Once every source key is present, any further run is the identity. -/
lemma migrateFrom_fixed (k : α → κ) (source : List α) (b : Nat) (T : List α)
    (hT : ∀ r ∈ source, k r ∈ T.map k) :
    ∀ (d off : Nat), source.length - off ≤ d → migrateFrom k source b off T = T := by
  intro d
  induction d with
  | zero =>
    intro off hd
    rw [migrateFrom, dif_neg (by omega)]
  | succ d ih =>
    intro off hd
    by_cases hoff : off < source.length ∧ 0 < b
    · rw [migrateFrom, dif_pos hoff]
      have hbatch : insertBatch k T (fetchBatch source off b) = T := by
        refine insertBatch_skip_all k (fetchBatch source off b) T (fun r hr => ?_)
        have : r ∈ source :=
          List.mem_of_mem_drop (List.mem_of_mem_take hr)
        exact hT r this
      rw [hbatch]
      exact ih (off + b) (by omega)
    · rw [migrateFrom, dif_neg hoff]

/-- C4: running the full sequential migration twice against the same
unmodified source leaves the target of the first run unchanged — the
conflict-skip insert path skips every row of the second run — so the
second run yields the same target row count as the first. -/
theorem migrate_table_idempotent (k : α → κ) (source : List α) (b : Nat)
    (target : List α) (hb : 0 < b) :
    migrateTableRun k source b (migrateTableRun k source b target) =
      migrateTableRun k source b target ∧
    (migrateTableRun k source b (migrateTableRun k source b target)).length =
      (migrateTableRun k source b target).length := by
  have hT : ∀ r ∈ source, k r ∈ (migrateTableRun k source b target).map k := by
    intro r hr
    exact migrateFrom_covers k source b hb source.length 0 target r (by omega)
      (by simpa using hr)
  have heq : migrateTableRun k source b (migrateTableRun k source b target) =
      migrateTableRun k source b target :=
    migrateFrom_fixed k source b _ hT source.length 0 (by omega)
  exact ⟨heq, by rw [heq]⟩

/-- C4 witness: a source with a duplicate key, migrated twice from the
empty target, keeps the row count of the first run. -/
theorem migrate_table_idempotent_witness :
    migrateTableRun (Prod.fst : Nat × Nat → Nat) [(1, 10), (1, 11), (2, 20)] 2
        (migrateTableRun (Prod.fst : Nat × Nat → Nat) [(1, 10), (1, 11), (2, 20)] 2 []) =
      migrateTableRun (Prod.fst : Nat × Nat → Nat) [(1, 10), (1, 11), (2, 20)] 2 [] :=
  (migrate_table_idempotent (Prod.fst : Nat × Nat → Nat) [(1, 10), (1, 11), (2, 20)] 2 []
    (by decide)).1

end IdempotenceTheorems

end MySQLtoPostgreSQL
